import Mathlib

/-!
Verification of `internal/dockercompose/fake_client.go` (the fake
Docker Compose client of the tilt repository).

The Go code is shallowly embedded: each Go function becomes a pure Lean
function; the mutable `FakeDCClient` struct becomes a Lean structure that
operations transform explicitly; Go errors become `Option String` /
`Except String`; Go channels become lists with explicit capacity bounds;
the goroutine inside `StreamLogs` becomes a function over an explicit
trace of `select` outcomes.  Character-level functions (`strings.ToLower`,
`unicode.IsSpace`, the `[a-z0-9_-]` regular expression) are modelled on
the ASCII range, which is the range the regular expression in the source
can ever keep.
-/

namespace DockerCompose

/-! ## Character-level helpers used by `Project` and `StreamLogs` -/

/-- `strings.ToLower` applied to one character, on the ASCII range:
characters `A`..`Z` (code points 65..90) are shifted down by 32,
everything else is unchanged. -/
def goToLowerChar (c : Char) : Char :=
  if 65 ≤ c.toNat ∧ c.toNat ≤ 90 then Char.ofNat (c.toNat + 32) else c

/-- Membership in the character class `[a-z0-9_-]` of the regular
expression compiled in `Project` (fake_client.go line 180). -/
def isAllowedChar (c : Char) : Bool :=
  (97 ≤ c.toNat && c.toNat ≤ 122) || (48 ≤ c.toNat && c.toNat ≤ 57) ||
    c.toNat == 95 || c.toNat == 45

/-- The cutset `"_-"` of the `strings.TrimLeft` call
(fake_client.go line 183). -/
def isSepChar (c : Char) : Bool :=
  c.toNat == 95 || c.toNat == 45

/-- The normalization pipeline of `projectNameOpt` on character lists:
lowercase, keep only `[a-z0-9_-]` (matches of a one-character class,
joined, are exactly a filter), then strip leading `_`/`-`
(fake_client.go lines 180-183). -/
def normalizeChars (cs : List Char) : List Char :=
  List.dropWhile isSepChar (List.filter isAllowedChar (List.map goToLowerChar cs))

/-- String-level wrapper of `normalizeChars`: the name normalization
performed by `projectNameOpt` on a non-empty working directory. -/
def normalizeName (s : String) : String :=
  String.mk (normalizeChars s.data)

/-- `filepath.Base` on a Unix path, as the Go standard library defines it:
empty path gives `"."`; otherwise trailing slashes are stripped, and if
nothing remains the result is `"/"`, else the component after the last
remaining slash. -/
def filepathBase (path : String) : String :=
  if path = "" then "."
  else
    let cs := (path.data.reverse.dropWhile (fun c => c = '/')).reverse
    if cs = [] then "/"
    else String.mk ((cs.reverse.takeWhile (fun c => c ≠ '/')).reverse)

/-- The project-name option closure built inside `Project`
(fake_client.go lines 176-189): a non-empty working directory yields the
normalized basename, an empty one yields the literal fallback
`"fakedc"`. -/
def projectNameOpt (workDir : String) : String :=
  if workDir ≠ "" then normalizeName (filepathBase workDir) else "fakedc"

/-! ### Helper lemmas for idempotence of the normalization -/

/-- An allowed character is outside `A`..`Z`, so lowering leaves it
unchanged. -/
lemma goToLowerChar_of_allowed {c : Char} (h : isAllowedChar c = true) :
    goToLowerChar c = c := by
  unfold goToLowerChar
  rw [if_neg]
  simp only [isAllowedChar, Bool.or_eq_true, Bool.and_eq_true, decide_eq_true_eq,
    beq_iff_eq] at h
  omega

/-- Every character surviving `normalizeChars` is in the allowed class. -/
lemma allowed_of_mem_normalizeChars {c : Char} {cs : List Char}
    (h : c ∈ normalizeChars cs) : isAllowedChar c = true := by
  unfold normalizeChars at h
  have hmem : c ∈ List.filter isAllowedChar (List.map goToLowerChar cs) :=
    (List.dropWhile_sublist _).mem h
  exact List.of_mem_filter hmem

/-- Mapping a function that fixes every element of a list is the
identity on that list. -/
lemma map_id_of_forall {α : Type} (f : α → α) :
    ∀ (l : List α), (∀ a ∈ l, f a = a) → List.map f l = l := by
  intro l
  induction l with
  | nil => intro _; rfl
  | cons a t ih =>
      intro h
      simp only [List.map_cons]
      rw [h a (List.mem_cons_self a t), ih (fun b hb => h b (List.mem_cons_of_mem a hb))]

/-- `dropWhile` is idempotent. -/
lemma dropWhile_idem {α : Type} (p : α → Bool) :
    ∀ (l : List α), List.dropWhile p (List.dropWhile p l) = List.dropWhile p l := by
  intro l
  induction l with
  | nil => rfl
  | cons a t ih =>
      by_cases h : p a = true
      · rw [List.dropWhile_cons_of_pos h, ih]
      · rw [List.dropWhile_cons_of_neg h, List.dropWhile_cons_of_neg h]

/-- The character-list normalization is idempotent. -/
lemma normalizeChars_idem (cs : List Char) :
    normalizeChars (normalizeChars cs) = normalizeChars cs := by
  have hmap : List.map goToLowerChar (normalizeChars cs) = normalizeChars cs :=
    map_id_of_forall goToLowerChar _
      (fun c hc => goToLowerChar_of_allowed (allowed_of_mem_normalizeChars hc))
  have hfilter : List.filter isAllowedChar (normalizeChars cs) = normalizeChars cs :=
    List.filter_eq_self.mpr (fun c hc => allowed_of_mem_normalizeChars hc)
  show List.dropWhile isSepChar
      (List.filter isAllowedChar (List.map goToLowerChar (normalizeChars cs)))
    = normalizeChars cs
  rw [hmap, hfilter]
  unfold normalizeChars
  exact dropWhile_idem isSepChar _

/-! ## The client state and the lifecycle operations -/

/-- Modelled from the spec: the external `model.DockerComposeUpSpec`
value type (§3 ServiceUpSpec), a service name together with whatever the
orchestrator attaches to it; only the `service` field is read by the
code under verification (`StreamLogs`). -/
structure DockerComposeUpSpec where
  service : String
deriving Repr, DecidableEq

/-- Modelled from the spec: the external `model.DockerComposeProject`
value type (§3 Project); the fake client only stores it in `DownCall`
records, so its contents stay abstract behind a name field. -/
structure DockerComposeProject where
  name : String
deriving Repr, DecidableEq

/-- Represents a single call to `Up` (fake_client.go lines 46-50). -/
structure UpCall where
  spec : DockerComposeUpSpec
  shouldBuild : Bool
deriving Repr, DecidableEq

/-- Represents a single call to `Down` (fake_client.go lines 52-55). -/
structure DownCall where
  proj : DockerComposeProject
deriving Repr, DecidableEq

/-- Represents a single call to `Rm` (fake_client.go lines 57-59). -/
structure RmCall where
  specs : List DockerComposeUpSpec
deriving Repr, DecidableEq

/-- The capacity of the `eventJson` ingestion channel:
`make(chan string, 100)` in `NewFakeDockerComposeClient`. -/
def eventJsonCapacity : Nat := 100

/-- The mutable state of `FakeDCClient`, with Go errors as
`Option String` and the buffered `eventJson` channel as the list of its
queued (serialized) events.  The defaults are the zero values /
`NewFakeDockerComposeClient` initialisation. -/
structure FakeDCClient where
  upCalls : List UpCall := []
  downCalls : List DownCall := []
  rmCalls : List RmCall := []
  downError : Option String := none
  rmError : Option String := none
  versionOutput : String := ""
  workDir : String := ""
  eventJson : List String := []
deriving Repr, DecidableEq

/-- `Up` (fake_client.go lines 70-74): appends one `UpCall` record and
returns nil. -/
def FakeDCClient.up (c : FakeDCClient) (spec : DockerComposeUpSpec)
    (shouldBuild : Bool) : FakeDCClient × Option String :=
  ({ c with upCalls := c.upCalls ++ [UpCall.mk spec shouldBuild] }, none)

/-- `Down` (fake_client.go lines 76-84): appends one `DownCall` record;
if `DownError` is set it is read, written back unchanged (the source's
`err := c.DownError; c.DownError = err`) and returned. -/
def FakeDCClient.down (c : FakeDCClient) (proj : DockerComposeProject) :
    FakeDCClient × Option String :=
  let c1 := { c with downCalls := c.downCalls ++ [DownCall.mk proj] }
  match c1.downError with
  | some e => ({ c1 with downError := some e }, some e)
  | none => (c1, none)

/-- `Rm` (fake_client.go lines 86-94): appends one `RmCall` record; same
sticky-error shape as `Down`, on `RmError`. -/
def FakeDCClient.rm (c : FakeDCClient) (specs : List DockerComposeUpSpec) :
    FakeDCClient × Option String :=
  let c1 := { c with rmCalls := c.rmCalls ++ [RmCall.mk specs] }
  match c1.rmError with
  | some e => ({ c1 with rmError := some e }, some e)
  | none => (c1, none)

/-- `Version` (fake_client.go lines 207-213): non-empty `VersionOutput`
is returned as given, otherwise the known-good default `"v1.29.2"`;
variant is always `"tilt-fake"` and the error always nil. -/
def FakeDCClient.version (c : FakeDCClient) : String × String × Option String :=
  if c.versionOutput ≠ "" then (c.versionOutput, "tilt-fake", none)
  else ("v1.29.2", "tilt-fake", none)

/-- `SendEvent` (fake_client.go lines 154-161).  The JSON encoding of
the external `Event` type happens outside this file, so its result is
taken as an `Except` input.  A Go channel send blocks when the buffer is
full; the blocked case is `none`. -/
def FakeDCClient.sendEvent (c : FakeDCClient) (enc : Except String String) :
    Option (FakeDCClient × Option String) :=
  match enc with
  | .error e => some (c, some e)
  | .ok j =>
      if c.eventJson.length < eventJsonCapacity then
        some ({ c with eventJson := c.eventJson ++ [j] }, none)
      else none

/-! ### Call sequences, for the history invariant -/

/-- One lifecycle call, for reasoning about arbitrary interleavings of
`Up`, `Down` and `Rm`. -/
inductive DCCall where
  | up (spec : DockerComposeUpSpec) (shouldBuild : Bool)
  | down (proj : DockerComposeProject)
  | rm (specs : List DockerComposeUpSpec)
deriving Repr, DecidableEq

/-- Apply one lifecycle call to the client state. -/
def applyCall (c : FakeDCClient) : DCCall → FakeDCClient
  | .up spec sb => (c.up spec sb).1
  | .down proj => (c.down proj).1
  | .rm specs => (c.rm specs).1

/-- Run a sequence of lifecycle calls left to right. -/
def runCalls (c : FakeDCClient) : List DCCall → FakeDCClient
  | [] => c
  | k :: rest => runCalls (applyCall c k) rest

/-- The `UpCall` record a call appends, if it is an `Up`. -/
def upRecordOf : DCCall → Option UpCall
  | .up spec sb => some (UpCall.mk spec sb)
  | _ => none

/-- The `DownCall` record a call appends, if it is a `Down`. -/
def downRecordOf : DCCall → Option DownCall
  | .down proj => some (DownCall.mk proj)
  | _ => none

/-- The `RmCall` record a call appends, if it is an `Rm`. -/
def rmRecordOf : DCCall → Option RmCall
  | .rm specs => some (RmCall.mk specs)
  | _ => none

/-- Run a sequence of `Down` calls, collecting each call's returned
error. -/
def runDowns (c : FakeDCClient) : List DockerComposeProject →
    FakeDCClient × List (Option String)
  | [] => (c, [])
  | p :: rest =>
      let r := c.down p
      let res := runDowns r.1 rest
      (res.1, r.2 :: res.2)

/-! ### Field lemmas for the lifecycle operations -/

lemma up_fields (c : FakeDCClient) (spec : DockerComposeUpSpec) (sb : Bool) :
    (c.up spec sb).1.upCalls = c.upCalls ++ [UpCall.mk spec sb] ∧
    (c.up spec sb).1.downCalls = c.downCalls ∧
    (c.up spec sb).1.rmCalls = c.rmCalls := by
  simp [FakeDCClient.up]

lemma down_fields (c : FakeDCClient) (proj : DockerComposeProject) :
    (c.down proj).1.upCalls = c.upCalls ∧
    (c.down proj).1.downCalls = c.downCalls ++ [DownCall.mk proj] ∧
    (c.down proj).1.rmCalls = c.rmCalls ∧
    (c.down proj).1.downError = c.downError ∧
    (c.down proj).1.rmError = c.rmError := by
  cases h : c.downError <;> simp [FakeDCClient.down, h]

lemma rm_fields (c : FakeDCClient) (specs : List DockerComposeUpSpec) :
    (c.rm specs).1.upCalls = c.upCalls ∧
    (c.rm specs).1.downCalls = c.downCalls ∧
    (c.rm specs).1.rmCalls = c.rmCalls ++ [RmCall.mk specs] ∧
    (c.rm specs).1.downError = c.downError ∧
    (c.rm specs).1.rmError = c.rmError := by
  cases h : c.rmError <;> simp [FakeDCClient.rm, h]

/-! ## StreamLogs -/

/-- `unicode.IsSpace` on the ASCII range: space, tab, newline, vertical
tab, form feed, carriage return. -/
def isSpaceChar (c : Char) : Bool :=
  c.toNat == 32 || c.toNat == 9 || c.toNat == 10 || c.toNat == 11 ||
    c.toNat == 12 || c.toNat == 13

/-- `strings.TrimRightFunc(s, unicode.IsSpace)` (fake_client.go
line 117). -/
def trimRightSpace (s : String) : String :=
  String.mk ((s.data.reverse.dropWhile isSpaceChar).reverse)

/-- One outcome of the `select` inside the `StreamLogs` goroutine
(fake_client.go lines 106-122): the cancellation signal fired, a content
string was received, or the content channel was observed closed. -/
inductive LogEvent where
  | cancel
  | recv (s : String)
  | closed
deriving Repr, DecidableEq

/-- The loop of the `StreamLogs` goroutine over an explicit trace of
`select` outcomes.  `n` counts content lines already emitted and indexes
the clock `ts` (each emitted line's `time.Now()` timestamp).  `cancel`
and `closed` both set `done`, after which the goroutine writes the exit
trailer unconditionally (fake_client.go lines 124-128); an exhausted
trace means the goroutine is still blocked in `select` and has produced
nothing further. -/
def streamLogsGo (service : String) (ts : Nat → String) :
    Nat → List LogEvent → List String
  | _, [] => []
  | _, .cancel :: _ => [service ++ " exited with code 0\n"]
  | _, .closed :: _ => [service ++ " exited with code 0\n"]
  | n, .recv s :: rest =>
      (ts n ++ " " ++ trimRightSpace s ++ "\n") :: streamLogsGo service ts (n + 1) rest

/-- The full byte stream a `StreamLogs` call produces for the trace
`evs`: the attach marker first (fake_client.go line 103), then the loop
output. -/
def streamLogsRun (service : String) (ts : Nat → String)
    (evs : List LogEvent) : List String :=
  ("Attaching to " ++ service ++ "\n") :: streamLogsGo service ts 0 evs

/-- The content lines the spec's wire format prescribes for the given
content strings, starting at clock index `n`:
`"<timestamp> <trimmed message>\n"` per content string, in order. -/
def specContentLines (ts : Nat → String) : Nat → List String → List String
  | _, [] => []
  | n, s :: rest =>
      (ts n ++ " " ++ trimRightSpace s ++ "\n") :: specContentLines ts (n + 1) rest

/-! ## StreamEvents (the event bus distribution loop) -/

/-- The capacity of each subscriber delivery channel:
`make(chan string, 10)` in `StreamEvents` (fake_client.go line 134). -/
def streamEventsCapacity : Nat := 10

/-- One forwarding step of the distribution loop (fake_client.go lines
138-143): the non-blocking send places the event in the subscriber
buffer if there is room; `none` is the `default` branch, which panics
(the fatal overflow fault) instead of dropping or blocking. -/
def forwardEvent (buf : List String) (event : String) : Option (List String) :=
  if buf.length < streamEventsCapacity then some (buf ++ [event]) else none

/-- Forward a sequence of dequeued events to one subscriber buffer;
`none` as soon as any forwarding step hits the fatal overflow branch. -/
def distributeEvents (buf : List String) : List String → Option (List String)
  | [] => some buf
  | e :: rest =>
      match forwardEvent buf e with
      | some b => distributeEvents b rest
      | none => none

/-! ## Remaining helper lemmas -/

/-- Natural completion of the `StreamLogs` loop: a trace of received
content strings followed by channel close produces exactly the
spec-format content lines and then the exit trailer. -/
lemma streamLogsGo_natural (service : String) (ts : Nat → String) :
    ∀ (content : List String) (n : Nat),
    streamLogsGo service ts n (content.map LogEvent.recv ++ [LogEvent.closed])
      = specContentLines ts n content ++ [service ++ " exited with code 0\n"] := by
  intro content
  induction content with
  | nil => intro n; rfl
  | cons s rest ih =>
      intro n
      simp only [List.map_cons, List.cons_append, streamLogsGo, specContentLines,
        List.append_eq, ih (n + 1)]

/-- While `DownError` is set, every `Down` in a sequence returns it. -/
lemma runDowns_sticky (e : String) :
    ∀ (projs : List DockerComposeProject) (c : FakeDCClient),
    c.downError = some e →
    (runDowns c projs).2 = projs.map (fun _ => some e) := by
  intro projs
  induction projs with
  | nil => intro c _; rfl
  | cons p rest ih =>
      intro c h
      have h2 : (c.down p).2 = some e := by simp [FakeDCClient.down, h]
      have h3 : (c.down p).1.downError = some e := by simp [FakeDCClient.down, h]
      simp only [runDowns, List.map_cons, h2, ih _ h3]

/-- Forwarding within joint capacity never hits the overflow branch and
delivers every event in order. -/
lemma distributeEvents_no_overflow :
    ∀ (evs buf : List String), buf.length + evs.length ≤ streamEventsCapacity →
    distributeEvents buf evs = some (buf ++ evs) := by
  intro evs
  induction evs with
  | nil => intro buf _; simp [distributeEvents]
  | cons e rest ih =>
      intro buf h
      simp only [List.length_cons] at h
      have hlt : buf.length < streamEventsCapacity := by omega
      have hrest : (buf ++ [e]).length + rest.length ≤ streamEventsCapacity := by
        simp only [List.length_append, List.length_cons, List.length_nil]
        omega
      simp only [distributeEvents, forwardEvent, if_pos hlt, ih _ hrest,
        List.append_assoc, List.singleton_append]

/-! ## Claim theorems -/

/-- C1: a `StreamLogs` call that runs to natural completion (its content
channel closes after yielding its lines) produces exactly the attach
marker `"Attaching to <service>\n"`, then one line
`"<timestamp> <trailing-whitespace-trimmed message>\n"` per content
string in order, then `"<service> exited with code 0\n"`; in particular
service `"web"` fed `"a"` then `"b "` yields the attach marker, the
timestamped `"a"`, the timestamped `"b"` (space trimmed) and the exit
line. -/
theorem streamLogs_natural_completion :
    (∀ (service : String) (ts : Nat → String) (content : List String),
      streamLogsRun service ts (content.map LogEvent.recv ++ [LogEvent.closed])
        = ("Attaching to " ++ service ++ "\n")
            :: (specContentLines ts 0 content ++ [service ++ " exited with code 0\n"])) ∧
    streamLogsRun "web" (fun n => "ts" ++ toString n)
        [LogEvent.recv "a", LogEvent.recv "b ", LogEvent.closed]
      = ["Attaching to web\n", "ts0 a\n", "ts1 b\n", "web exited with code 0\n"] := by
  constructor
  · intro service ts content
    unfold streamLogsRun
    rw [streamLogsGo_natural]
  · decide

/-- C2 counterexample: a `StreamLogs` call cancelled before any content
does NOT yield exactly one line — the goroutine writes the exit trailer
unconditionally after its loop, so the stream holds two lines, not just
the attach marker. -/
theorem streamLogs_cancel_counterexample :
    streamLogsRun "web" (fun _ => "ts") [LogEvent.cancel]
      = ["Attaching to web\n", "web exited with code 0\n"] ∧
    (["Attaching to web\n", "web exited with code 0\n"] : List String)
      ≠ ["Attaching to web\n"] := by
  exact ⟨by decide, by decide⟩

/-- C2 (amended): a `StreamLogs` call whose cancellation fires before
any content line and before natural completion yields the attach marker,
no content lines, and then the terminal `"<service> exited with code
0\n"` line — the trailer is emitted even on cancellation — and then
closes. -/
theorem streamLogs_cancel_emits_trailer :
    ∀ (service : String) (ts : Nat → String) (rest : List LogEvent),
    streamLogsRun service ts (LogEvent.cancel :: rest)
      = ["Attaching to " ++ service ++ "\n", service ++ " exited with code 0\n"] := by
  intro service ts rest
  rfl

/-- C3: with `DownError` set to `e` and never cleared, every subsequent
`Down` returns exactly `e` and leaves `DownError` as `e`; `Rm` has the
same sticky behaviour on `RmError`; and the two faults are independent —
`Down` never changes `RmError` and `Rm` never changes `DownError`. -/
theorem down_rm_sticky_faults :
    ∀ (c : FakeDCClient) (e : String) (proj : DockerComposeProject)
      (specs : List DockerComposeUpSpec) (projs : List DockerComposeProject),
    (c.downError = some e →
      (c.down proj).2 = some e ∧ (c.down proj).1.downError = some e ∧
      (runDowns c projs).2 = projs.map (fun _ => some e)) ∧
    (c.rmError = some e →
      (c.rm specs).2 = some e ∧ (c.rm specs).1.rmError = some e) ∧
    (c.down proj).1.rmError = c.rmError ∧
    (c.rm specs).1.downError = c.downError := by
  intro c e proj specs projs
  refine ⟨fun h => ⟨?_, ?_, runDowns_sticky e projs c h⟩, fun h => ⟨?_, ?_⟩,
    (down_fields c proj).2.2.2.2, (rm_fields c specs).2.2.2.1⟩
  · simp [FakeDCClient.down, h]
  · simp [FakeDCClient.down, h]
  · simp [FakeDCClient.rm, h]
  · simp [FakeDCClient.rm, h]

/-- C3 witness: a concrete client with both faults set. -/
theorem down_rm_sticky_faults_witness :
    (({ downError := some "dboom", rmError := some "rboom" } : FakeDCClient).down
        (DockerComposeProject.mk "p")).2 = some "dboom" ∧
    (({ downError := some "dboom", rmError := some "rboom" } : FakeDCClient).rm []).2
      = some "rboom" :=
  ⟨((down_rm_sticky_faults { downError := some "dboom", rmError := some "rboom" }
      "dboom" (DockerComposeProject.mk "p") [] []).1 rfl).1,
   ((down_rm_sticky_faults { downError := some "dboom", rmError := some "rboom" }
      "rboom" (DockerComposeProject.mk "p") [] []).2.1 rfl).1⟩

/-- C4: over every sequence of `Up`/`Down`/`Rm` calls, each call appends
exactly one record to its own history, histories grow in call order,
each `UpCall` keeps its spec and flag unmodified, and previously
appended records are never mutated or removed (the old history is a
prefix of the new one). -/
theorem call_history_invariant :
    ∀ (c : FakeDCClient) (calls : List DCCall),
    (runCalls c calls).upCalls = c.upCalls ++ calls.filterMap upRecordOf ∧
    (runCalls c calls).downCalls = c.downCalls ++ calls.filterMap downRecordOf ∧
    (runCalls c calls).rmCalls = c.rmCalls ++ calls.filterMap rmRecordOf := by
  intro c calls
  induction calls generalizing c with
  | nil => simp [runCalls]
  | cons k rest ih =>
      obtain ⟨h1, h2, h3⟩ := ih (applyCall c k)
      refine ⟨?_, ?_, ?_⟩
      · show (runCalls (applyCall c k) rest).upCalls = _
        rw [h1]
        cases k with
        | up spec sb => simp [applyCall, (up_fields c spec sb).1, upRecordOf]
        | down proj => simp [applyCall, (down_fields c proj).1, upRecordOf]
        | rm specs => simp [applyCall, (rm_fields c specs).1, upRecordOf]
      · show (runCalls (applyCall c k) rest).downCalls = _
        rw [h2]
        cases k with
        | up spec sb => simp [applyCall, (up_fields c spec sb).2.1, downRecordOf]
        | down proj => simp [applyCall, (down_fields c proj).2.1, downRecordOf]
        | rm specs => simp [applyCall, (rm_fields c specs).2.1, downRecordOf]
      · show (runCalls (applyCall c k) rest).rmCalls = _
        rw [h3]
        cases k with
        | up spec sb => simp [applyCall, (up_fields c spec sb).2.2, rmRecordOf]
        | down proj => simp [applyCall, (down_fields c proj).2.2.1, rmRecordOf]
        | rm specs => simp [applyCall, (rm_fields c specs).2.2.1, rmRecordOf]

/-- C5: `Project` derives the project name from the working directory:
the empty working directory yields the reserved non-empty fallback
`"fakedc"`; a non-empty one yields its final path component lowercased,
filtered to `[a-z0-9_-]` and stripped of leading `_`/`-`; basename
`"My-App_2"` yields `"my-app_2"`. -/
theorem projectName_derivation :
    (∀ d : String,
      projectNameOpt d = if d = "" then "fakedc" else normalizeName (filepathBase d)) ∧
    projectNameOpt "" = "fakedc" ∧
    ("fakedc" : String) ≠ "" ∧
    projectNameOpt "My-App_2" = "my-app_2" ∧
    projectNameOpt "/home/user/My-App_2" = "my-app_2" := by
  refine ⟨?_, by decide, by decide, by decide, by decide⟩
  intro d
  by_cases h : d = "" <;> simp [projectNameOpt, h]

/-- C6: the project-name normalization (lowercase, keep `[a-z0-9_-]`,
strip leading `_`/`-`) is idempotent on every string. -/
theorem normalizeName_idempotent (s : String) :
    normalizeName (normalizeName s) = normalizeName s := by
  show String.mk (normalizeChars (normalizeChars s.data)) = String.mk (normalizeChars s.data)
  rw [normalizeChars_idem]

/-- C7: `SendEvent` fails exactly when encoding fails, in which case the
queue is untouched; on success the serialized event is appended to the
ingestion queue, which has capacity 100, and the call blocks only when
that queue is full. -/
theorem sendEvent_spec :
    (∀ (c : FakeDCClient) (e : String),
      c.sendEvent (Except.error e) = some (c, some e)) ∧
    (∀ (c : FakeDCClient) (j : String), c.eventJson.length < eventJsonCapacity →
      c.sendEvent (Except.ok j) = some ({ c with eventJson := c.eventJson ++ [j] }, none)) ∧
    (∀ (c : FakeDCClient) (j : String), eventJsonCapacity ≤ c.eventJson.length →
      c.sendEvent (Except.ok j) = none) ∧
    eventJsonCapacity = 100 := by
  refine ⟨fun c e => rfl, fun c j h => ?_, fun c j h => ?_, rfl⟩
  · simp [FakeDCClient.sendEvent, h]
  · simp [FakeDCClient.sendEvent, Nat.not_lt.mpr h]

/-- C7 witness: a fresh client accepts an encoded event, and an
encoding failure is surfaced with the state unchanged. -/
theorem sendEvent_spec_witness :
    ({ } : FakeDCClient).eventJson.length < eventJsonCapacity ∧
    ({ } : FakeDCClient).sendEvent (Except.ok "j")
      = some ({ ({ } : FakeDCClient) with
          eventJson := ({ } : FakeDCClient).eventJson ++ ["j"] }, none) ∧
    ({ } : FakeDCClient).sendEvent (Except.error "bad") = some ({ }, some "bad") :=
  ⟨by decide, sendEvent_spec.2.1 { } "j" (by decide), sendEvent_spec.1 { } "bad"⟩

/-- C8: each subscriber delivery channel of `StreamEvents` has fixed
capacity 10; a full channel makes the distribution loop take the fatal
panic branch rather than dropping, blocking or growing the buffer; and
whenever the channel is never full at a forwarding step, the fatal
branch is unreachable and every dequeued event is delivered in order. -/
theorem streamEvents_overflow_fatal :
    streamEventsCapacity = 10 ∧
    (∀ (buf : List String) (e : String), streamEventsCapacity ≤ buf.length →
      forwardEvent buf e = none) ∧
    (∀ (buf : List String) (e : String), buf.length < streamEventsCapacity →
      forwardEvent buf e = some (buf ++ [e])) ∧
    (∀ (buf evs : List String), buf.length + evs.length ≤ streamEventsCapacity →
      distributeEvents buf evs = some (buf ++ evs)) := by
  refine ⟨rfl, fun buf e h => ?_, fun buf e h => ?_, fun buf evs h =>
    distributeEvents_no_overflow evs buf h⟩
  · simp [forwardEvent, Nat.not_lt.mpr h]
  · simp [forwardEvent, h]

/-- C8 witness: ten events fit an empty subscriber buffer and are all
delivered; an eleventh forwarding attempt on the full buffer panics. -/
theorem streamEvents_overflow_fatal_witness :
    distributeEvents [] ["e0", "e1", "e2", "e3", "e4", "e5", "e6", "e7", "e8", "e9"]
      = some ["e0", "e1", "e2", "e3", "e4", "e5", "e6", "e7", "e8", "e9"] ∧
    forwardEvent ["e0", "e1", "e2", "e3", "e4", "e5", "e6", "e7", "e8", "e9"] "e10"
      = none :=
  ⟨streamEvents_overflow_fatal.2.2.2 []
      ["e0", "e1", "e2", "e3", "e4", "e5", "e6", "e7", "e8", "e9"] (by decide),
   streamEvents_overflow_fatal.2.1
      ["e0", "e1", "e2", "e3", "e4", "e5", "e6", "e7", "e8", "e9"] "e10" (by decide)⟩

/-- C9: `Version` never returns an error and always reports variant
`"tilt-fake"`; with `VersionOutput` unset it returns the non-empty
known-good default `"v1.29.2"`, and with `VersionOutput` set it returns
it unchanged. -/
theorem version_spec :
    ∀ (c : FakeDCClient),
    (c.version).2.2 = none ∧
    (c.version).2.1 = "tilt-fake" ∧
    (c.versionOutput = "" → (c.version).1 = "v1.29.2") ∧
    (c.versionOutput ≠ "" → (c.version).1 = c.versionOutput) ∧
    ("v1.29.2" : String) ≠ "" := by
  intro c
  by_cases h : c.versionOutput = "" <;>
    refine ⟨?_, ?_, ?_, ?_, by decide⟩ <;>
    simp [FakeDCClient.version, h]

/-- C9 witness: an unconfigured client reports the default version, a
configured one reports its configured output. -/
theorem version_spec_witness :
    (({ } : FakeDCClient).version).1 = "v1.29.2" ∧
    (({ versionOutput := "v2.0.0" } : FakeDCClient).version).1 = "v2.0.0" :=
  ⟨(version_spec { }).2.2.1 rfl,
   (version_spec { versionOutput := "v2.0.0" }).2.2.2.1 (by decide)⟩

/-- C10: the fallback name applies only to the empty working directory;
a non-empty directory whose normalized basename is empty (for example
basename `"!!!"` or `"---"`) yields the empty project name. -/
theorem projectName_empty_result :
    (∀ d : String, d ≠ "" → normalizeName (filepathBase d) = "" →
      projectNameOpt d = "") ∧
    projectNameOpt "!!!" = "" ∧
    projectNameOpt "---" = "" ∧
    projectNameOpt "" = "fakedc" := by
  refine ⟨?_, by decide, by decide, by decide⟩
  intro d hd hn
  simp [projectNameOpt, hd, hn]

/-- C10 witness: the non-empty directory `"!!!"` normalizes to the
empty name. -/
theorem projectName_empty_result_witness :
    ("!!!" : String) ≠ "" ∧
    normalizeName (filepathBase "!!!") = "" ∧
    projectNameOpt "!!!" = "" :=
  ⟨by decide, by decide, projectName_empty_result.1 "!!!" (by decide) (by decide)⟩

end DockerCompose
